import Mathlib

/-!
Shallow embedding of `sparse_vector.hpp` (namespace `sv`): a growable
array-backed slot container with an existence flag per cell and a
free-index store (`freeIndeces_`, a `std::vector<size_t>` used as a stack:
`push_back` / `back` / `pop_back`).

Modelling choices:
* A buffer cell (`value_info` in the source: a `value` slot plus an `exist`
  flag) is modelled as a three-state inductive: `uninit` for a cell whose
  flag was never written (freshly allocated memory), `free` for a cell
  whose flag was written `false`, and `live v` for a cell whose flag is
  `true` and whose slot holds the constructed value `v`.
* The buffer `data_` is a list of cells of length `capacity_`; `size_` is
  a separate field.  Reading the `exist` flag of an `uninit` cell (or of a
  cell beyond the allocation) yields an unspecified boolean; wherever the
  source can perform such a read (`erase_at` at `index == size_`, because
  its bound check is `index > size_`), the embedded function takes the
  junk boolean as an explicit argument.  Every cell below `size_` has a
  written flag on every path of the source, so the other operations read
  flags with the harmless convention that `uninit` reads as clear.
* Exceptions are modelled by `Except`; the four distinct `std::out_of_range`
  messages of the source are kept apart as four error constructors.
-/

namespace sv

/-- One buffer cell: the source's `value_info` (a raw `value` slot plus an
`exist` flag).  `uninit` is a cell whose flag was never initialised. -/
inductive value_info (α : Type) : Type where
  | uninit : value_info α
  | free : value_info α
  | live : α → value_info α
deriving DecidableEq, Repr

namespace value_info

/-- Reading the `exist` flag; for an uninitialised cell the read returns
the unspecified boolean `junk`. -/
def existFlag : value_info α → Bool → Bool
  | .uninit, junk => junk
  | .free, _ => false
  | .live _, _ => true

/-- The `exist` flag of an initialised cell.  Cells below `size_` are
always initialised in the source, so the `uninit` case is never reached
where this read is used; it is fixed to `false` only to keep the
definition total. -/
def exist : value_info α → Bool
  | .uninit => false
  | .free => false
  | .live _ => true

/-- The constructed value held by a cell, if the cell is live. -/
def deref : value_info α → Option α
  | .live v => some v
  | _ => none

/-- The loop body of `reallocate`: a cell with a clear flag is copied as a
clear flag (`newData[i].exist = false`), a live cell has its value
relocated (`move_place` then `newData[i].exist = true`).  The `uninit`
case takes the `!exist` branch; it is never exercised below `size_`. -/
def reloc : value_info α → value_info α
  | .live v => .live v
  | _ => .free

/-- The loop body of `feel_free_cells`: a cell whose flag reads clear gets
`funct()` constructed into it and its flag set; a live cell is kept. -/
def fill (funct : Unit → α) : value_info α → value_info α
  | .live v => .live v
  | _ => .live (funct ())

/-- The loop body of `clear`: a live cell has its value destroyed and its
flag cleared; a cell whose flag reads clear is left alone. -/
def wipe : value_info α → value_info α
  | .live _ => .free
  | c => c

end value_info

/-- The errors the source reports by throwing `std::out_of_range`, kept
apart by message: `outOfRange` for the "out of range" / "index out of
size" messages, `notExist` for "value doesnt exist ...", `alreadyExist`
for "value already exist ...", `emptyPop` for "... is empty on pop_back". -/
inductive SvError : Type where
  | outOfRange : SvError
  | notExist : SvError
  | alreadyExist : SvError
  | emptyPop : SvError
deriving DecidableEq, Repr

/-- The container state: buffer `data_` (length = `capacity_`), logical
size `size_`, and the free-index store `freeIndeces_` (back of the stack =
last element of the list). -/
structure sparse_vector (α : Type) : Type where
  data : List (value_info α)
  size : Nat
  freeIndeces : List Nat
deriving DecidableEq, Repr

namespace sparse_vector

/-- `capacity()`: the allocation length of the buffer. -/
def capacity (sv : sparse_vector α) : Nat := sv.data.length

/-- Reading cell `data_[i]`; a read beyond the allocation yields an
uninitialised junk cell. -/
def cell (sv : sparse_vector α) (i : Nat) : value_info α :=
  (sv.data[i]?).getD .uninit

/-- The default constructor: `capacity_ = 2`, `size_ = 0`, empty free
store, freshly allocated (uninitialised) buffer. -/
def init (α : Type) : sparse_vector α :=
  { data := List.replicate 2 .uninit, size := 0, freeIndeces := [] }

/-- `reallocate(newCapacity)`: allocate a buffer of `newCapacity` cells,
copy cells `0 ≤ i < size_` (a clear flag is copied as a clear flag, a live
value is relocated), release the old buffer.  Cells at and beyond `size_`
in the new buffer are uninitialised.  (Cells below `size_` are never
`uninit` in the source, so mapping `uninit` to `free` — the `!exist`
branch — is never exercised.) -/
def reallocate (sv : sparse_vector α) (newCapacity : Nat) : sparse_vector α :=
  { data :=
      (sv.data.take sv.size).map value_info.reloc
      ++ List.replicate (newCapacity - sv.size) .uninit,
    size := sv.size,
    freeIndeces := sv.freeIndeces }

/-- `mark_as_free(i)`: clear the flag of cell `i` and push `i` onto the
free-index store. -/
def mark_as_free (sv : sparse_vector α) (i : Nat) : sparse_vector α :=
  { sv with data := sv.data.set i .free,
            freeIndeces := sv.freeIndeces ++ [i] }

/-- `push_free(val)`: if the free store is empty, grow by doubling when
`size_ == capacity_`, construct at index `size_` and increment `size_`;
otherwise construct at the back of the free store and pop it.  Returns the
index used. -/
def push_free (sv : sparse_vector α) (val : α) : Nat × sparse_vector α :=
  match sv.freeIndeces.getLast? with
  | none =>
      let sv1 := if sv.size = sv.capacity then sv.reallocate (sv.capacity * 2) else sv
      (sv1.size,
        { sv1 with data := sv1.data.set sv1.size (.live val), size := sv1.size + 1 })
  | some index =>
      (index,
        { sv with data := sv.data.set index (.live val),
                  freeIndeces := sv.freeIndeces.dropLast })

/-- `emplace_free(args...)`: identical control flow to `push_free`, the
value being constructed in place from `args...`. -/
def emplace_free (sv : sparse_vector α) (val : α) : Nat × sparse_vector α :=
  match sv.freeIndeces.getLast? with
  | none =>
      let sv1 := if sv.size = sv.capacity then sv.reallocate (sv.capacity * 2) else sv
      (sv1.size,
        { sv1 with data := sv1.data.set sv1.size (.live val), size := sv1.size + 1 })
  | some index =>
      (index,
        { sv with data := sv.data.set index (.live val),
                  freeIndeces := sv.freeIndeces.dropLast })

/-- `erase_at(index)`: note the source's bound check is `index > size_`
(not `>=`), so at `index == size_` it reads the flag of the cell one past
the logical end — possibly uninitialised memory, whose unspecified value
is the argument `junkExist`.  If the flag reads clear it throws "value
doesnt exist"; otherwise it destroys the value and calls `mark_as_free`. -/
def erase_at (sv : sparse_vector α) (index : Nat) (junkExist : Bool) :
    Except SvError (sparse_vector α) :=
  if sv.size < index then .error .outOfRange
  else if ((sv.cell index).existFlag junkExist) = false then .error .notExist
  else .ok (sv.mark_as_free index)

/-- `pop_back()`: throws when `size_ == 0`; otherwise decrements `size_`,
destroys the slot of the now-excluded cell and clears its flag.  The index
is NOT pushed onto the free store. -/
def pop_back (sv : sparse_vector α) : Except SvError (sparse_vector α) :=
  if sv.size = 0 then .error .emptyPop
  else .ok { sv with size := sv.size - 1,
                     data := sv.data.set (sv.size - 1) .free }

/-- `feel_free_cells(funct)`: for each `i < size_` whose flag reads clear,
construct `funct()` into the cell and set the flag; finally clear the free
store. -/
def feel_free_cells (sv : sparse_vector α) (funct : Unit → α) : sparse_vector α :=
  { sv with
    data :=
      (sv.data.take sv.size).map (value_info.fill funct)
      ++ sv.data.drop sv.size,
    freeIndeces := [] }

/-- `reserve(newCapacity)`: reallocates only when `newCapacity` exceeds
the current capacity. -/
def reserve (sv : sparse_vector α) (newCapacity : Nat) : sparse_vector α :=
  if newCapacity ≤ sv.capacity then sv else sv.reallocate newCapacity

/-- `resize(newSize)`: `reserve(newSize)`, then `mark_as_free(i)` for each
`i` in `[size_, newSize)`, then `size_ = newSize`. -/
def resize (sv : sparse_vector α) (newSize : Nat) : sparse_vector α :=
  let sv1 := sv.reserve newSize
  let sv2 := (List.range' sv1.size (newSize - sv1.size)).foldl mark_as_free sv1
  { sv2 with size := newSize }

/-- `exist_at(i)`: `false` when `size_ <= i` or the flag of cell `i` is
clear, `true` otherwise. -/
def exist_at (sv : sparse_vector α) (i : Nat) : Bool :=
  if sv.size ≤ i then false
  else (sv.cell i).exist

/-- `at(i)`: throws "index out of ... size" when `size_ <= i`, throws
"value doesnt exist" when the flag of cell `i` is clear, otherwise returns
the value. -/
def at_ (sv : sparse_vector α) (i : Nat) : Except SvError α :=
  if sv.size ≤ i then .error .outOfRange
  else match sv.cell i with
    | .live v => .ok v
    | _ => .error .notExist

/-- `emplace_at(i, args...)`: throws "index out of ... size" when
`size_ <= i`.  The source then throws its "value already exist" error
under the condition `if (!cell.exist)` — i.e. on a cell whose flag is
CLEAR — and otherwise placement-constructs over the cell and sets the
flag.  This inverted guard is embedded exactly as written. -/
def emplace_at (sv : sparse_vector α) (i : Nat) (val : α) :
    Except SvError (sparse_vector α) :=
  if sv.size ≤ i then .error .outOfRange
  else if (sv.cell i).exist = false then .error .alreadyExist
  else .ok { sv with data := sv.data.set i (.live val) }

/-- `clear()`: destroy every live value below `size_` and clear its flag,
empty the free store, set `size_ = 0`.  Capacity is retained. -/
def clear (sv : sparse_vector α) : sparse_vector α :=
  { sv with
    data :=
      (sv.data.take sv.size).map value_info.wipe
      ++ sv.data.drop sv.size,
    freeIndeces := [],
    size := 0 }

/-- `get_free_cells()`: read-only view of the free-index store. -/
def get_free_cells (sv : sparse_vector α) : List Nat := sv.freeIndeces

end sparse_vector

/-- The iterator's skip loop (shared by the constructor and `operator++`):
from position `p`, advance while the position differs from the end
boundary `e` and the cell's flag reads clear.  (In every iterator the
source constructs, the position never exceeds the boundary, so `p ≠ e`
is rendered as `p < e`; the loop is expressed with explicit fuel — each
pass moves one position, so `e - p` passes always suffice, and any fuel
of at least `e - p` computes the loop's result.) -/
def skipFree (data : List (value_info α)) (e : Nat) : Nat → Nat → Nat
  | p, 0 => p
  | p, fuel + 1 =>
    if p < e then
      if ((data[p]?).getD .uninit).exist then p
      else skipFree data e (p + 1) fuel
    else p

/-- Values produced by the client loop `for (it = begin; it != end; ++it)
yield *it` from position `p` to the boundary `e`: dereference, then
`operator++` (step one position and run the skip loop).  Fuel as in
`skipFree`.  Dereferencing a non-live cell is undefined behaviour in the
source and unreachable from a position the skip loop produced; the
embedding yields nothing for it. -/
def iterLoop (data : List (value_info α)) (e : Nat) : Nat → Nat → List α
  | _, 0 => []
  | p, fuel + 1 =>
    if p < e then
      match (data[p]?).getD .uninit with
      | .live v => v :: iterLoop data e (skipFree data e (p + 1) e) fuel
      | _ => iterLoop data e (skipFree data e (p + 1) e) fuel
    else []

namespace sparse_vector

/-- The value sequence of a full `begin()`-to-`end()` traversal:
`begin()` constructs an iterator at the buffer start with boundary
`data_ + size_`, the construction itself running the skip loop past any
leading clear cells. -/
def toListIter (sv : sparse_vector α) : List α :=
  iterLoop sv.data sv.size (skipFree sv.data sv.size 0 sv.size) sv.size

/-- The live values below `size_`, in ascending index order. -/
def liveVals (sv : sparse_vector α) : List α :=
  (sv.data.take sv.size).filterMap value_info.deref

end sparse_vector

/-- The cumulative effect on the buffer of a sequence of `mark_as_free`
flag writes: clear the flag of each listed index in turn. -/
def setFree (data : List (value_info α)) (l : List Nat) : List (value_info α) :=
  l.foldl (fun d i => d.set i .free) data

/-- The free-store invariant of the specification: entries are pairwise
distinct, below `size_`, and name cells whose flag is clear. -/
def FreeInv (sv : sparse_vector α) : Prop :=
  sv.freeIndeces.Nodup ∧
    ∀ i ∈ sv.freeIndeces, i < sv.size ∧ sv.data[i]? = some .free

instance (sv : sparse_vector α) [DecidableEq α] : Decidable (FreeInv sv) := by
  unfold FreeInv
  infer_instance

open sparse_vector

/-! Helper lemmas about the embedded operations. -/

theorem freeInv_of_nil (sv : sparse_vector α) (h : sv.freeIndeces = []) :
    FreeInv sv := by
  refine ⟨by simp [h], ?_⟩
  intro i hi
  rw [h] at hi
  simp at hi

theorem setFree_nil (data : List (value_info α)) : setFree data [] = data := rfl

theorem setFree_cons (data : List (value_info α)) (j : Nat) (t : List Nat) :
    setFree data (j :: t) = setFree (data.set j .free) t := rfl

theorem length_setFree (data : List (value_info α)) (l : List Nat) :
    (setFree data l).length = data.length := by
  induction l generalizing data with
  | nil => rfl
  | cons j t ih => rw [setFree_cons, ih, List.length_set]

theorem getElem?_setFree_not_mem {data : List (value_info α)} {l : List Nat}
    {i : Nat} (h : i ∉ l) : (setFree data l)[i]? = data[i]? := by
  induction l generalizing data with
  | nil => rfl
  | cons j t ih =>
    rw [setFree_cons, ih (fun hm => h (List.mem_cons_of_mem _ hm))]
    refine List.getElem?_set_ne (fun hj => h ?_)
    rw [← hj]
    exact List.mem_cons_self _ _

theorem getElem?_setFree_mem {data : List (value_info α)} {l : List Nat}
    {i : Nat} (h : i ∈ l) (hlen : i < data.length) :
    (setFree data l)[i]? = some .free := by
  induction l generalizing data with
  | nil => simp at h
  | cons j t ih =>
    rw [setFree_cons]
    by_cases ht : i ∈ t
    · exact ih ht (by rw [List.length_set]; exact hlen)
    · have hij : i = j := by
        rcases List.mem_cons.mp h with h' | h'
        · exact h'
        · exact absurd h' ht
      rw [getElem?_setFree_not_mem ht, hij]
      exact List.getElem?_set_self (hij ▸ hlen)

theorem foldl_mark_as_free (sv : sparse_vector α) (l : List Nat) :
    l.foldl mark_as_free sv
      = ⟨setFree sv.data l, sv.size, sv.freeIndeces ++ l⟩ := by
  induction l generalizing sv with
  | nil => simp [setFree_nil]
  | cons j t ih =>
    rw [List.foldl_cons]
    rw [ih (sv.mark_as_free j)]
    simp [mark_as_free, setFree_cons]

theorem reserve_size (sv : sparse_vector α) (n : Nat) :
    (sv.reserve n).size = sv.size := by
  unfold reserve
  split <;> rfl

theorem reserve_frees (sv : sparse_vector α) (n : Nat) :
    (sv.reserve n).freeIndeces = sv.freeIndeces := by
  unfold reserve
  split <;> rfl

theorem reallocate_getElem? (sv : sparse_vector α) (c : Nat) {i : Nat}
    (hsz : sv.size ≤ sv.data.length) (hi : i < sv.size) :
    (sv.reallocate c).data[i]? = (sv.data[i]?).map value_info.reloc := by
  unfold reallocate
  have hlt : i < ((sv.data.take sv.size).map value_info.reloc).length := by
    simp [List.length_take]
    omega
  rw [List.getElem?_append_left hlt, List.getElem?_map,
    List.getElem?_take_of_lt hi]

theorem reserve_getElem?_free (sv : sparse_vector α) (n : Nat) {i : Nat}
    (hsz : sv.size ≤ sv.data.length) (hi : i < sv.size)
    (hfree : sv.data[i]? = some .free) :
    (sv.reserve n).data[i]? = some .free := by
  unfold reserve
  split
  · exact hfree
  · rw [reallocate_getElem? sv n hsz hi, hfree]
    rfl

theorem reserve_length (sv : sparse_vector α) (n : Nat)
    (hsz : sv.size ≤ sv.data.length) (hn : sv.size ≤ n) :
    n ≤ (sv.reserve n).data.length := by
  unfold reserve
  split
  · unfold capacity at *
    omega
  · unfold capacity at *
    simp [reallocate, List.length_take]
    omega

theorem resize_eq (sv : sparse_vector α) (n : Nat) :
    sv.resize n
      = ⟨setFree (sv.reserve n).data (List.range' sv.size (n - sv.size)), n,
          sv.freeIndeces ++ List.range' sv.size (n - sv.size)⟩ := by
  unfold resize
  simp only [foldl_mark_as_free, reserve_size, reserve_frees]

theorem push_free_nil (sv : sparse_vector α) (v : α)
    (h : sv.freeIndeces = []) :
    sv.push_free v
      = (let sv1 := if sv.size = sv.capacity
            then sv.reallocate (sv.capacity * 2) else sv;
          (sv1.size,
            { sv1 with data := sv1.data.set sv1.size (.live v),
                       size := sv1.size + 1 })) := by
  unfold push_free
  rw [h]
  rfl

theorem push_free_concat (sv : sparse_vector α) (l : List Nat) (j : Nat)
    (v : α) (h : sv.freeIndeces = l ++ [j]) :
    sv.push_free v = (j, ⟨sv.data.set j (.live v), sv.size, l⟩) := by
  unfold push_free
  rw [h, List.getLast?_concat, List.dropLast_concat]

theorem erase_at_ok {sv sv' : sparse_vector α} {i : Nat} {junk : Bool}
    (h : sv.erase_at i junk = .ok sv') :
    i ≤ sv.size ∧ (sv.cell i).existFlag junk = true
      ∧ sv' = sv.mark_as_free i := by
  unfold erase_at at h
  split at h
  · cases h
  · split at h
    · cases h
    · rename_i hlt hflag
      refine ⟨by omega, by simpa using hflag, (Except.ok.inj h).symm⟩

theorem at_eq (sv : sparse_vector α) (i : Nat) :
    sv.at_ i
      = if sv.size ≤ i then .error .outOfRange
        else match (sv.data[i]?).getD .uninit with
          | .live v => .ok v
          | _ => .error .notExist := rfl

theorem exist_at_eq (sv : sparse_vector α) (i : Nat) :
    sv.exist_at i
      = if sv.size ≤ i then false
        else ((sv.data[i]?).getD .uninit).exist := rfl

theorem push_free_full (sv : sparse_vector α) (v : α)
    (hfree : sv.freeIndeces = []) (hc : sv.size = sv.capacity) :
    sv.push_free v
      = (sv.size,
          ⟨(sv.reallocate (sv.capacity * 2)).data.set sv.size (.live v),
            sv.size + 1, sv.freeIndeces⟩) := by
  rw [push_free_nil sv v hfree]
  simp only [if_pos hc]
  rfl

theorem feel_getElem? (sv : sparse_vector α) (f : Unit → α) {i : Nat}
    (hi : i < sv.size) (hlen : i < sv.data.length) :
    (sv.feel_free_cells f).data[i]? = (sv.data[i]?).map (value_info.fill f) := by
  unfold feel_free_cells
  have hlt : i < ((sv.data.take sv.size).map (value_info.fill f)).length := by
    simp [List.length_take]
    omega
  rw [List.getElem?_append_left hlt, List.getElem?_map,
    List.getElem?_take_of_lt hi]

/-- C5: free-slot reuse is LIFO.  With a non-empty free store,
`push_free` (and the identically structured `emplace_free`) pops the
most-recently-freed index (the back of the store), constructs the value
there, and returns that index; after a successful `erase_at(i)` an
immediate `push_free(v)` places `v` at index `i` and returns `i`; and the
concrete scenario: from an empty container, `push_free(10)` returns 0,
`push_free(20)` returns 1, `erase_at(0)` succeeds, `push_free(30)`
returns 0, and iteration then yields `[30, 20]`. -/
theorem claim5_lifo_reuse :
    (∀ (sv : sparse_vector α) (l : List Nat) (j : Nat) (v : α),
        sv.freeIndeces = l ++ [j] →
          sv.push_free v = (j, ⟨sv.data.set j (.live v), sv.size, l⟩)
            ∧ sv.emplace_free v = (j, ⟨sv.data.set j (.live v), sv.size, l⟩))
      ∧ (∀ (sv sv' : sparse_vector α) (i : Nat) (junk : Bool) (v : α),
          sv.size ≤ sv.data.length → i < sv.size →
            sv.erase_at i junk = .ok sv' →
              (sv'.push_free v).1 = i ∧ (sv'.push_free v).2.at_ i = .ok v)
      ∧ ((init Nat).push_free 10 = (0, ⟨[.live 10, .uninit], 1, []⟩))
      ∧ ((⟨[.live 10, .uninit], 1, []⟩ : sparse_vector Nat).push_free 20
          = (1, ⟨[.live 10, .live 20], 2, []⟩))
      ∧ ((⟨[.live 10, .live 20], 2, []⟩ : sparse_vector Nat).erase_at 0 false
          = .ok ⟨[.free, .live 20], 2, [0]⟩)
      ∧ ((⟨[.free, .live 20], 2, [0]⟩ : sparse_vector Nat).push_free 30
          = (0, ⟨[.live 30, .live 20], 2, []⟩))
      ∧ ((⟨[.live 30, .live 20], 2, []⟩ : sparse_vector Nat).toListIter
          = [30, 20]) := by
  refine ⟨?_, ?_, rfl, rfl, rfl, rfl, rfl⟩
  · intro sv l j v hlj
    have he : sv.emplace_free v = sv.push_free v := rfl
    rw [he, push_free_concat sv l j v hlj]
    exact ⟨rfl, rfl⟩
  · intro sv sv' i junk v hsz hi hok
    obtain ⟨hle, hflag, rfl⟩ := erase_at_ok hok
    have hfr : (sv.mark_as_free i).freeIndeces = sv.freeIndeces ++ [i] := rfl
    have hpc := push_free_concat (sv.mark_as_free i) sv.freeIndeces i v hfr
    rw [hpc]
    refine ⟨rfl, ?_⟩
    rw [at_eq]
    have hget : ((sv.data.set i .free).set i (.live v))[i]? = some (.live v) := by
      apply List.getElem?_set_self
      rw [List.length_set]
      omega
    show (if sv.size ≤ i then Except.error SvError.outOfRange
        else match (((sv.data.set i .free).set i (.live v))[i]?).getD .uninit with
          | .live w => Except.ok w
          | _ => Except.error SvError.notExist) = Except.ok v
    rw [if_neg (show ¬ sv.size ≤ i by omega), hget]
    rfl

/-- C5 witness: the general clauses applied concretely — the LIFO clause
at the state `{[free, live 20], size 2, free store [0]}`, and the
erase-then-push clause across `erase_at(0)` on `{[live 10, live 20]}`. -/
theorem claim5_lifo_reuse_witness :
    ((⟨[.free, .live 20], 2, [0]⟩ : sparse_vector Nat).push_free 30
        = (0, ⟨[.live 30, .live 20], 2, []⟩))
      ∧ ((⟨[.free, .live 20], 2, [0]⟩ : sparse_vector Nat).push_free 30).2.at_ 0
          = .ok 30 := by
  have h := @claim5_lifo_reuse Nat
  have ha := h.1 ⟨[.free, .live 20], 2, [0]⟩ [] 0 30 rfl
  have hb := h.2.1 ⟨[.live 10, .live 20], 2, []⟩ ⟨[.free, .live 20], 2, [0]⟩
    0 false 30 (by decide) (by decide) rfl
  exact ⟨ha.1, hb.2⟩

theorem feel_cell (sv : sparse_vector α) (f : Unit → α) {i : Nat}
    (hi : i < sv.size) (hlen : i < sv.data.length) :
    ((sv.feel_free_cells f).data[i]?).getD .uninit
      = value_info.fill f ((sv.data[i]?).getD .uninit) := by
  rw [feel_getElem? sv f hi hlen]
  cases hcell : sv.data[i]? with
  | none => exact absurd (List.getElem?_eq_none_iff.mp hcell) (by omega)
  | some c => rfl

/-- C6: when an insertion with an empty free store finds
`size == capacity`, the buffer grows to exactly `2 * capacity`, and every
index below the old size keeps its observable state: a live index still
yields its old value via `at`, a free index stays free (same `at` error
and same `exist_at`).  Concretely, three insertions into a fresh
capacity-2 container trigger exactly one growth, to capacity 4, with all
three values retrievable at their original indices. -/
theorem claim6_growth (sv : sv.sparse_vector α) (v : α)
    (hfree : sv.freeIndeces = []) (hfull : sv.size = sv.data.length) :
    ((sv.push_free v).2.capacity = 2 * sv.capacity)
      ∧ (∀ i, i < sv.size →
          (sv.push_free v).2.at_ i = sv.at_ i
            ∧ (sv.push_free v).2.exist_at i = sv.exist_at i)
      ∧ ((init Nat).push_free 10 = (0, ⟨[.live 10, .uninit], 1, []⟩))
      ∧ ((⟨[.live 10, .uninit], 1, []⟩ : sparse_vector Nat).capacity = 2)
      ∧ ((⟨[.live 10, .uninit], 1, []⟩ : sparse_vector Nat).push_free 20
          = (1, ⟨[.live 10, .live 20], 2, []⟩))
      ∧ ((⟨[.live 10, .live 20], 2, []⟩ : sparse_vector Nat).capacity = 2)
      ∧ ((⟨[.live 10, .live 20], 2, []⟩ : sparse_vector Nat).push_free 30
          = (2, ⟨[.live 10, .live 20, .live 30, .uninit], 3, []⟩))
      ∧ ((⟨[.live 10, .live 20, .live 30, .uninit], 3, []⟩
            : sparse_vector Nat).capacity = 4)
      ∧ ((⟨[.live 10, .live 20, .live 30, .uninit], 3, []⟩
            : sparse_vector Nat).at_ 0 = .ok 10)
      ∧ ((⟨[.live 10, .live 20, .live 30, .uninit], 3, []⟩
            : sparse_vector Nat).at_ 1 = .ok 20)
      ∧ ((⟨[.live 10, .live 20, .live 30, .uninit], 3, []⟩
            : sparse_vector Nat).at_ 2 = .ok 30) := by
  have hc : sv.size = sv.capacity := hfull
  have hsz' : sv.size ≤ sv.data.length := le_of_eq hfull
  have hpf := push_free_full sv v hfree hc
  refine ⟨?_, ?_, rfl, rfl, rfl, rfl, rfl, rfl, rfl, rfl, rfl⟩
  · rw [hpf]
    show ((sv.reallocate (sv.capacity * 2)).data.set sv.size (.live v)).length
      = 2 * sv.capacity
    rw [List.length_set]
    show ((sv.data.take sv.size).map value_info.reloc
        ++ List.replicate (sv.capacity * 2 - sv.size) value_info.uninit).length
      = 2 * sv.capacity
    simp [List.length_take]
    unfold capacity at *
    omega
  · intro i hi
    have hne : sv.size ≠ i := by omega
    have hget : (sv.push_free v).2.data[i]? = (sv.data[i]?).map value_info.reloc := by
      rw [hpf]
      show ((sv.reallocate (sv.capacity * 2)).data.set sv.size (.live v))[i]? = _
      rw [List.getElem?_set_ne hne,
        reallocate_getElem? sv (sv.capacity * 2) hsz' hi]
    have hsize : (sv.push_free v).2.size = sv.size + 1 := by rw [hpf]
    cases hcell : sv.data[i]? with
    | none =>
      have := List.getElem?_eq_none_iff.mp hcell
      omega
    | some c =>
      rw [hcell] at hget
      constructor
      · rw [at_eq, at_eq, hget, hsize, hcell]
        rw [if_neg (by omega), if_neg (by omega)]
        cases c <;> rfl
      · rw [exist_at_eq, exist_at_eq, hget, hsize, hcell]
        rw [if_neg (by omega), if_neg (by omega)]
        cases c <;> rfl

/-- C6 witness: the growth clause applied to the concrete full container
`{[live 10, live 20], size 2}`: one more insertion doubles the capacity. -/
theorem claim6_growth_witness :
    ((⟨[.live 10, .live 20], 2, []⟩ : sparse_vector Nat).push_free 30).2.capacity
      = 2 * (⟨[.live 10, .live 20], 2, []⟩ : sparse_vector Nat).capacity := by
  have h := claim6_growth (⟨[.live 10, .live 20], 2, []⟩ : sparse_vector Nat)
    30 rfl rfl
  exact h.1

/-- C9: `resize` to a larger size marks every index of `[oldSize, newSize)`
free and registers each in the free store, and `feel_free_cells(factory)`
constructs `factory()` into every free cell of `[0, size)`, keeps live
cells, makes every index live, and empties the free store.  Concretely,
`resize(5)` on an empty container frees indices 0–4, `at(2)` then fails
with the vacancy condition, `feel_free_cells` with a factory returning 7
fills all five cells, and iteration yields `[7,7,7,7,7]`. -/
theorem claim9_resize_feel (sv : sv.sparse_vector α) (f : Unit → α) (n : Nat)
    (hsz : sv.size ≤ sv.data.length) (hn : sv.size ≤ n) :
    ((sv.resize n).size = n)
      ∧ ((sv.resize n).freeIndeces
          = sv.freeIndeces ++ List.range' sv.size (n - sv.size))
      ∧ (∀ i, sv.size ≤ i → i < n → (sv.resize n).data[i]? = some .free)
      ∧ ((sv.feel_free_cells f).freeIndeces = [])
      ∧ ((sv.feel_free_cells f).size = sv.size)
      ∧ (∀ i, i < sv.size → (sv.feel_free_cells f).exist_at i = true)
      ∧ (∀ i, i < sv.size → sv.cell i = .free →
          (sv.feel_free_cells f).at_ i = .ok (f ()))
      ∧ (∀ i w, i < sv.size → sv.cell i = .live w →
          (sv.feel_free_cells f).at_ i = .ok w)
      ∧ ((init Nat).resize 5
          = ⟨[.free, .free, .free, .free, .free], 5, [0, 1, 2, 3, 4]⟩)
      ∧ ((⟨[.free, .free, .free, .free, .free], 5, [0, 1, 2, 3, 4]⟩
            : sparse_vector Nat).at_ 2 = .error .notExist)
      ∧ ((⟨[.free, .free, .free, .free, .free], 5, [0, 1, 2, 3, 4]⟩
            : sparse_vector Nat).feel_free_cells (fun _ => 7)
          = ⟨[.live 7, .live 7, .live 7, .live 7, .live 7], 5, []⟩)
      ∧ ((⟨[.live 7, .live 7, .live 7, .live 7, .live 7], 5, []⟩
            : sparse_vector Nat).toListIter = [7, 7, 7, 7, 7]) := by
  refine ⟨?_, ?_, ?_, rfl, rfl, ?_, ?_, ?_, rfl, rfl, rfl, rfl⟩
  · rw [resize_eq]
  · rw [resize_eq]
  · intro i h1 h2
    rw [resize_eq]
    show (setFree (sv.reserve n).data (List.range' sv.size (n - sv.size)))[i]?
      = some .free
    apply getElem?_setFree_mem
    · exact List.mem_range'_1.mpr ⟨h1, by omega⟩
    · have := reserve_length sv n hsz hn
      omega
  · intro i hi
    have hlen : i < sv.data.length := by omega
    rw [exist_at_eq]
    show (if sv.size ≤ i then false
        else (((sv.feel_free_cells f).data[i]?).getD .uninit).exist) = true
    rw [if_neg (by omega), feel_cell sv f hi hlen]
    cases (sv.data[i]?).getD .uninit <;> rfl
  · intro i hi hc
    have hlen : i < sv.data.length := by omega
    unfold cell at hc
    rw [at_eq]
    show (if sv.size ≤ i then Except.error SvError.outOfRange
        else match ((sv.feel_free_cells f).data[i]?).getD .uninit with
          | .live w => Except.ok w
          | _ => Except.error SvError.notExist) = Except.ok (f ())
    rw [if_neg (by omega), feel_cell sv f hi hlen, hc]
    rfl
  · intro i w hi hc
    have hlen : i < sv.data.length := by omega
    unfold cell at hc
    rw [at_eq]
    show (if sv.size ≤ i then Except.error SvError.outOfRange
        else match ((sv.feel_free_cells f).data[i]?).getD .uninit with
          | .live w => Except.ok w
          | _ => Except.error SvError.notExist) = Except.ok w
    rw [if_neg (by omega), feel_cell sv f hi hlen, hc]
    rfl

/-- C9 witness: the resize clauses applied to the fresh empty container
with `newSize = 5`. -/
theorem claim9_resize_feel_witness :
    ((init Nat).resize 5).size = 5
      ∧ ((init Nat).resize 5).freeIndeces = [] ++ List.range' 0 (5 - 0) := by
  have h := claim9_resize_feel (init Nat) (fun _ => 7) 5 (by decide) (by decide)
  exact ⟨h.1, h.2.1⟩

theorem skipFree_stop (data : List (value_info α)) (e p fs : Nat)
    (h : ¬ p < e) : skipFree data e p fs = p := by
  cases fs with
  | zero => rfl
  | succ f =>
    show (if p < e then
        if ((data[p]?).getD .uninit).exist then p
        else skipFree data e (p + 1) f
      else p) = p
    rw [if_neg h]

theorem skipFree_live (data : List (value_info α)) (e p fs : Nat)
    (hpe : p < e) (hex : ((data[p]?).getD .uninit).exist = true) :
    skipFree data e p fs = p := by
  cases fs with
  | zero => rfl
  | succ f =>
    show (if p < e then
        if ((data[p]?).getD .uninit).exist then p
        else skipFree data e (p + 1) f
      else p) = p
    rw [if_pos hpe, if_pos hex]

theorem skipFree_skip (data : List (value_info α)) (e p fs : Nat)
    (hpe : p < e) (hex : ((data[p]?).getD .uninit).exist = false) :
    skipFree data e p (fs + 1) = skipFree data e (p + 1) fs := by
  show (if p < e then
      if ((data[p]?).getD .uninit).exist then p
      else skipFree data e (p + 1) fs
    else p) = skipFree data e (p + 1) fs
  rw [if_pos hpe, if_neg (by rw [hex]; exact Bool.false_ne_true)]

theorem iterLoop_succ (data : List (value_info α)) (e p fuel : Nat) :
    iterLoop data e p (fuel + 1)
      = if p < e then
          match (data[p]?).getD .uninit with
          | .live v => v :: iterLoop data e (skipFree data e (p + 1) e) fuel
          | _ => iterLoop data e (skipFree data e (p + 1) e) fuel
        else [] := rfl

/-- The traversal from any skip-normalised position `p` with enough fuel
yields exactly the live values of the cell range `[p, e)`. -/
theorem iterLoop_skipFree (data : List (value_info α)) (e p fuel fs : Nat)
    (hf : e - p ≤ fuel) (hfs : e - p ≤ fs) :
    iterLoop data e (skipFree data e p fs) fuel
      = ((data.drop p).take (e - p)).filterMap value_info.deref := by
  by_cases hpe : p < e
  · obtain ⟨fs', rfl⟩ : ∃ fs', fs = fs' + 1 := ⟨fs - 1, by omega⟩
    cases hcell : data[p]? with
    | none =>
      have hlen : data.length ≤ p := List.getElem?_eq_none_iff.mp hcell
      have hex : ((data[p]?).getD .uninit).exist = false := by rw [hcell]; rfl
      rw [skipFree_skip data e p fs' hpe hex]
      rw [iterLoop_skipFree data e (p + 1) fuel fs' (by omega) (by omega)]
      rw [List.drop_eq_nil_of_le hlen,
        List.drop_eq_nil_of_le (show data.length ≤ p + 1 by omega)]
      simp
    | some c =>
      have hlt : p < data.length := by
        by_contra hcon
        rw [List.getElem?_eq_none_iff.mpr (by omega)] at hcell
        cases hcell
      have hgetd : (data[p]?).getD .uninit = c := by rw [hcell]; rfl
      have hdp : data[p] = c := by
        have h2 := List.getElem?_eq_getElem hlt
        rw [hcell] at h2
        exact (Option.some.inj h2).symm
      have hdrop : data.drop p = c :: data.drop (p + 1) := by
        rw [List.drop_eq_getElem_cons hlt, hdp]
      have hEp : e - p = (e - (p + 1)) + 1 := by omega
      cases c with
      | live v =>
        have hskip : skipFree data e p (fs' + 1) = p :=
          skipFree_live data e p (fs' + 1) hpe (by rw [hgetd]; rfl)
        obtain ⟨fu, rfl⟩ : ∃ fu, fuel = fu + 1 := ⟨fuel - 1, by omega⟩
        rw [hskip, iterLoop_succ, if_pos hpe, hgetd]
        show v :: iterLoop data e (skipFree data e (p + 1) e) fu
          = ((data.drop p).take (e - p)).filterMap value_info.deref
        rw [iterLoop_skipFree data e (p + 1) fu e (by omega) (by omega)]
        rw [hdrop, hEp, List.take_succ_cons, List.filterMap_cons]
        rfl
      | free =>
        have hex : ((data[p]?).getD .uninit).exist = false := by rw [hgetd]; rfl
        rw [skipFree_skip data e p fs' hpe hex]
        rw [iterLoop_skipFree data e (p + 1) fuel fs' (by omega) (by omega)]
        rw [hdrop, hEp, List.take_succ_cons, List.filterMap_cons]
        rfl
      | uninit =>
        have hex : ((data[p]?).getD .uninit).exist = false := by rw [hgetd]; rfl
        rw [skipFree_skip data e p fs' hpe hex]
        rw [iterLoop_skipFree data e (p + 1) fuel fs' (by omega) (by omega)]
        rw [hdrop, hEp, List.take_succ_cons, List.filterMap_cons]
        rfl
  · rw [skipFree_stop data e p fs hpe]
    have h0 : e - p = 0 := by omega
    rw [h0]
    cases fuel with
    | zero => rfl
    | succ f =>
      rw [iterLoop_succ, if_neg hpe]
      rfl
termination_by e - p
decreasing_by all_goals omega

/-- C7: iterating from `begin()` to `end()` yields exactly the values of
the live cells of `[0, size)`, in ascending index order, skipping every
free cell — for every container state (in particular every state
reachable by insertions and erasures).  `begin()` itself runs the skip
loop past leading free cells (`toListIter` starts from
`skipFree data size 0`), and each `operator++` skips contiguous free
cells (the `skipFree` call inside `iterLoop`). -/
theorem claim7_iteration_complete (sv : sv.sparse_vector α) :
    sv.toListIter = sv.liveVals := by
  unfold toListIter liveVals
  rw [iterLoop_skipFree sv.data sv.size 0 sv.size sv.size (by omega) (by omega)]
  rw [List.drop_zero, Nat.sub_zero]

/-- C1: the claim says `emplace_at(i, args...)` with `i < size` constructs
into a FREE cell and fails with "already occupied" when the cell is live.
The source's guard is inverted (`if (!cell.exist)` throws the
"value already exist" error): on a container holding the live value `10`
at index `0`, `emplace_at(0, 20)` succeeds and overwrites the live value,
while on a container whose cell `0` is free, `emplace_at(0, 5)` throws the
"already occupied" error. -/
theorem claim1_emplace_at_guard_inverted :
    (((init Nat).push_free 10).2.emplace_at 0 20
        = .ok ⟨[.live 20, .uninit], 1, []⟩)
      ∧ (((init Nat).push_free 10).2.at_ 0 = .ok 10)
      ∧ (((init Nat).resize 1).emplace_at 0 5 = .error .alreadyExist)
      ∧ ((init Nat).resize 1).exist_at 0 = false := by
  refine ⟨rfl, rfl, rfl, rfl⟩

/-- C2: the claim says no single public operation other than
`erase_at(i)`, a `pop_back` removing `i`, `clear`, or move-from changes
`at(i)` for a live index `i`.  Because of the inverted `emplace_at` guard,
`emplace_at(0, 20)` on a container whose index `0` holds the live value
`10` changes `at(0)` from `10` to `20`. -/
theorem claim2_index_stability_broken :
    (((init Nat).push_free 10).2.at_ 0 = .ok 10)
      ∧ (((init Nat).push_free 10).2.emplace_at 0 20
          = .ok ⟨[.live 20, .uninit], 1, []⟩)
      ∧ ((⟨[.live 20, .uninit], 1, []⟩ : sparse_vector Nat).at_ 0 = .ok 20)
      ∧ (10 : Nat) ≠ 20 := by
  refine ⟨rfl, rfl, rfl, by decide⟩

/-- C4: the claim says `erase_at(index)` fails with out-of-range iff
`index >= size`.  The source's bound check is `index > size_`, so at
`index == size` (here: a container of size 1, `erase_at(1)`) it does not
report out-of-range: it reads the flag of the cell one past the logical
end and, depending on that unspecified bit, reports "not occupied" or
destroys the junk cell and pushes index `size` onto the free store.
`index == size + 1` is still reported as out-of-range. -/
theorem claim4_erase_at_off_by_one :
    (((init Nat).push_free 10).2.size = 1)
      ∧ (((init Nat).push_free 10).2.erase_at 1 false = .error .notExist)
      ∧ (((init Nat).push_free 10).2.erase_at 1 true
          = .ok ⟨[.live 10, .free], 1, [1]⟩)
      ∧ (((init Nat).push_free 10).2.erase_at 2 false = .error .outOfRange)
      ∧ (((init Nat).push_free 10).2.erase_at 2 true = .error .outOfRange) := by
  refine ⟨rfl, rfl, rfl, rfl, rfl⟩

/-- C3 counterexample: the free-store invariant is not preserved by every
public operation.  The state reached by `push_free(10)` then
`erase_at(0)` satisfies the invariant (free store `[0]`, size 1), but
`pop_back` then shrinks the size to 0 without removing the entry `0`,
leaving a free-store entry `>= size`. -/
theorem claim3_counterexample :
    (((init Nat).push_free 10).2.erase_at 0 false
        = .ok ⟨[.free, .uninit], 1, [0]⟩)
      ∧ FreeInv (⟨[.free, .uninit], 1, [0]⟩ : sparse_vector Nat)
      ∧ ((⟨[.free, .uninit], 1, [0]⟩ : sparse_vector Nat).pop_back
          = .ok ⟨[.free, .uninit], 0, [0]⟩)
      ∧ ¬ FreeInv (⟨[.free, .uninit], 0, [0]⟩ : sparse_vector Nat) := by
  refine ⟨rfl, by decide, rfl, by decide⟩

/-- C3 (amended): the free-store invariant — entries pairwise distinct,
each `< size` and naming a cell with a clear flag — is preserved by
`push_free`, `emplace_free`, `erase_at` away from the off-by-one boundary
`index == size`, `emplace_at`, `feel_free_cells`, `reserve`, `resize` to
a size `>= size`, and `clear`.  It is NOT preserved by `pop_back`, by
`resize` to a smaller size, or by `erase_at` at `index == size` (see the
counterexample). -/
theorem claim3_free_inv_amended (sv : sv.sparse_vector α) (h : FreeInv sv)
    (hsz : sv.size ≤ sv.data.length) :
    (∀ v, FreeInv (sv.push_free v).2)
      ∧ (∀ v, FreeInv (sv.emplace_free v).2)
      ∧ (∀ i junk sv', i ≠ sv.size → sv.erase_at i junk = .ok sv' → FreeInv sv')
      ∧ (∀ i v sv', sv.emplace_at i v = .ok sv' → FreeInv sv')
      ∧ (∀ f, FreeInv (sv.feel_free_cells f))
      ∧ (∀ n, FreeInv (sv.reserve n))
      ∧ (∀ n, sv.size ≤ n → FreeInv (sv.resize n))
      ∧ FreeInv sv.clear := by
  have hpush : ∀ v, FreeInv (sv.push_free v).2 := by
    intro v
    rcases List.eq_nil_or_concat sv.freeIndeces with hnil | ⟨l, j, hlj⟩
    · rw [push_free_nil sv v hnil]
      apply freeInv_of_nil
      by_cases hc : sv.size = sv.capacity
      · simp [hc, reallocate, hnil]
      · simp [hc, hnil]
    · rw [List.concat_eq_append] at hlj
      rw [push_free_concat sv l j v hlj]
      obtain ⟨hnd, hmem⟩ := h
      rw [hlj] at hnd
      have hdisj := List.nodup_append.mp hnd
      refine ⟨hdisj.1, ?_⟩
      intro k hk
      have hk0 : k ∈ l := hk
      have hk' := hmem k (by rw [hlj]; exact List.mem_append_left _ hk0)
      have hkj : k ≠ j := by
        intro he
        exact hdisj.2.2 hk0 (by rw [he]; exact List.mem_singleton.mpr rfl)
      refine ⟨hk'.1, ?_⟩
      show (sv.data.set j (.live v))[k]? = some .free
      rw [List.getElem?_set_ne (Ne.symm hkj)]
      exact hk'.2
  refine ⟨hpush, ?_, ?_, ?_, ?_, ?_, ?_, ?_⟩
  · intro v
    have he : sv.emplace_free v = sv.push_free v := rfl
    rw [he]
    exact hpush v
  · intro i junk sv' hne hok
    obtain ⟨hle, hflag, rfl⟩ := erase_at_ok hok
    have hi : i < sv.size := by omega
    have hifree : sv.data[i]? ≠ some .free := by
      intro hc
      have hcell : sv.cell i = .free := by unfold cell; rw [hc]; rfl
      rw [hcell] at hflag
      exact absurd hflag (by simp [value_info.existFlag])
    have hnotmem : i ∉ sv.freeIndeces := fun hm => hifree (h.2 i hm).2
    refine ⟨?_, ?_⟩
    · show (sv.freeIndeces ++ [i]).Nodup
      rw [List.nodup_append]
      exact ⟨h.1, List.nodup_singleton _,
        fun a ha hai => hnotmem ((List.mem_singleton.mp hai) ▸ ha)⟩
    · intro k hk
      have hk2 : k ∈ sv.freeIndeces ++ [i] := hk
      show k < sv.size ∧ (sv.data.set i .free)[k]? = some .free
      rcases List.mem_append.mp hk2 with hk3 | hk3
      · have hk' := h.2 k hk3
        have hki : k ≠ i := fun he => hnotmem (he ▸ hk3)
        exact ⟨hk'.1, by rw [List.getElem?_set_ne (Ne.symm hki)]; exact hk'.2⟩
      · have hkeq : k = i := List.mem_singleton.mp hk3
        subst hkeq
        exact ⟨hi, List.getElem?_set_self (by omega)⟩
  · intro i v sv' hok
    unfold emplace_at at hok
    split at hok
    · cases hok
    · split at hok
      · cases hok
      · rename_i hile hex
        obtain rfl := Except.ok.inj hok
        have hlive : sv.data[i]? ≠ some .free := by
          intro hc
          have hcell : sv.cell i = .free := by unfold cell; rw [hc]; rfl
          rw [hcell] at hex
          exact hex rfl
        refine ⟨h.1, ?_⟩
        intro k hk
        have hk0 : k ∈ sv.freeIndeces := hk
        have hk' := h.2 k hk0
        have hki : k ≠ i := fun he => hlive (he ▸ hk'.2)
        refine ⟨hk'.1, ?_⟩
        show (sv.data.set i (.live v))[k]? = some .free
        rw [List.getElem?_set_ne (Ne.symm hki)]
        exact hk'.2
  · intro f
    exact freeInv_of_nil _ rfl
  · intro n
    unfold reserve
    split
    · exact h
    · refine ⟨h.1, ?_⟩
      intro k hk
      have hk0 : k ∈ sv.freeIndeces := hk
      have hk' := h.2 k hk0
      refine ⟨hk'.1, ?_⟩
      show (sv.reallocate n).data[k]? = some .free
      rw [reallocate_getElem? sv n hsz hk'.1, hk'.2]
      rfl
  · intro n hn
    rw [resize_eq]
    refine ⟨?_, ?_⟩
    · show (sv.freeIndeces ++ List.range' sv.size (n - sv.size)).Nodup
      rw [List.nodup_append]
      refine ⟨h.1, List.nodup_range' _ _ _ (by omega), ?_⟩
      intro a ha haR
      have h1 := (h.2 a ha).1
      have h2 := (List.mem_range'_1.mp haR).1
      omega
    · intro k hk
      have hk2 : k ∈ sv.freeIndeces ++ List.range' sv.size (n - sv.size) := hk
      show k < n
        ∧ (setFree (sv.reserve n).data (List.range' sv.size (n - sv.size)))[k]?
            = some .free
      rcases List.mem_append.mp hk2 with hk3 | hk3
      · have hk' := h.2 k hk3
        refine ⟨by omega, ?_⟩
        have hkR : k ∉ List.range' sv.size (n - sv.size) := by
          intro hm
          have h1 := (List.mem_range'_1.mp hm).1
          have h2 := hk'.1
          omega
        rw [getElem?_setFree_not_mem hkR]
        exact reserve_getElem?_free sv n hsz hk'.1 hk'.2
      · have hmem := List.mem_range'_1.mp hk3
        refine ⟨by omega, ?_⟩
        apply getElem?_setFree_mem hk3
        have := reserve_length sv n hsz hn
        omega
  · exact freeInv_of_nil _ rfl

/-- C3 witness: the amended invariant theorem applied to the freshly
constructed container: one `push_free` preserves the invariant. -/
theorem claim3_free_inv_amended_witness :
    FreeInv ((init Nat).push_free 5).2 := by
  have h := claim3_free_inv_amended (init Nat) (by decide) (by decide)
  exact h.1 5

/-- C8: `pop_back` fails with the "empty" condition iff `size == 0`;
otherwise it decrements `size_`, clears the flag of the cell at the old
`size_ - 1`, and leaves the free-index store unchanged (the index is never
pushed).  On a size-1 container with the live value `10` at index 0 it
leaves size 0, and a subsequent `push_free(20)` takes the fresh-slot path
(the free store being empty) and places `20` at index 0. -/
theorem claim8_pop_back (sv : sv.sparse_vector α) :
    (sv.pop_back = .error .emptyPop ↔ sv.size = 0)
      ∧ (sv.size ≠ 0 →
          sv.pop_back
            = .ok ⟨sv.data.set (sv.size - 1) .free, sv.size - 1, sv.freeIndeces⟩)
      ∧ ((init Nat).push_free 10 = (0, ⟨[.live 10, .uninit], 1, []⟩))
      ∧ ((⟨[.live 10, .uninit], 1, []⟩ : sparse_vector Nat).pop_back
          = .ok ⟨[.free, .uninit], 0, []⟩)
      ∧ ((⟨[.free, .uninit], 0, []⟩ : sparse_vector Nat).freeIndeces = [])
      ∧ ((⟨[.free, .uninit], 0, []⟩ : sparse_vector Nat).push_free 20
          = (0, ⟨[.live 20, .uninit], 1, []⟩)) := by
  refine ⟨?_, ?_, rfl, rfl, rfl, rfl⟩
  · unfold pop_back
    split <;> simp_all
  · intro h
    unfold pop_back
    rw [if_neg h]

/-- C8 witness: the general clauses of the pop_back theorem applied to the
concrete size-1 container holding `10`. -/
theorem claim8_pop_back_witness :
    (⟨[.live 10, .uninit], 1, []⟩ : sparse_vector Nat).pop_back
      = .ok ⟨[.free, .uninit], 0, []⟩ := by
  have h := claim8_pop_back (⟨[.live 10, .uninit], 1, []⟩ : sparse_vector Nat)
  exact h.2.1 (by decide)

/-- C10: `resize(newSize)` with `newSize < size` only sets `size_`: the
buffer is untouched (no cell in `[newSize, size)` is destroyed or has its
flag changed) and nothing is removed from the free-index store, so stale
free-store entries `>= newSize` can remain.  Concretely, on the reachable
state `{[live 10, free], size 2, free store [1]}`, `resize(1)` leaves the
entry `1 >= 1` in the free store. -/
theorem claim10_resize_shrink (sv : sv.sparse_vector α) (n : Nat)
    (hsz : sv.size ≤ sv.data.length) (hn : n < sv.size) :
    sv.resize n = ⟨sv.data, n, sv.freeIndeces⟩
      ∧ (((init Nat).push_free 10).2.push_free 20
          = (1, ⟨[.live 10, .live 20], 2, []⟩))
      ∧ ((⟨[.live 10, .live 20], 2, []⟩ : sparse_vector Nat).erase_at 1 false
          = .ok ⟨[.live 10, .free], 2, [1]⟩)
      ∧ ((⟨[.live 10, .free], 2, [1]⟩ : sparse_vector Nat).resize 1
          = ⟨[.live 10, .free], 1, [1]⟩)
      ∧ (1 ∈ (⟨[.live 10, .free], 1, [1]⟩ : sparse_vector Nat).get_free_cells
          ∧ (⟨[.live 10, .free], 1, [1]⟩ : sparse_vector Nat).size ≤ 1) := by
  refine ⟨?_, rfl, rfl, rfl, by decide⟩
  have hcap : n ≤ sv.capacity := by
    unfold capacity; omega
  have h0 : n - sv.size = 0 := by omega
  unfold resize reserve
  rw [if_pos hcap]
  simp only [h0, List.range'_zero, List.foldl_nil]

/-- C10 witness: the general shrink clause applied to the concrete state
`{[live 10, free], size 2, free store [1]}` with `newSize = 1`. -/
theorem claim10_resize_shrink_witness :
    (⟨[.live 10, .free], 2, [1]⟩ : sparse_vector Nat).resize 1
      = ⟨[.live 10, .free], 1, [1]⟩ := by
  have h := claim10_resize_shrink
    (⟨[.live 10, .free], 2, [1]⟩ : sparse_vector Nat) 1 (by decide) (by decide)
  exact h.1

end sv
